import Mathlib

/-!
Verification of the shader metadata indexing and search tool (`search.py`).

The development is a shallow embedding of the tool's data model and of the
operations of the `ShaderSearcher` class:

* the resource-requirement inferencer inside `add_requires_info_to_jsons`
  (the loop over `renderpass` entries),
* the metadata mutator `add_requires_info_to_jsons` (tag pass and
  requires pass),
* the shader index builder `load_all_json_metadata`,
* the tag-mapping loader `build_tag_mappings`,
* the query engine `search`.

Modelling conventions:

* JSON documents are modelled by the inductive `Doc`: a document is either
  unparseable (`Doc.malformed`, covering read and parse failures), parsed
  but not a keyed structure (`Doc.notDict`), a keyed structure without an
  `info` section (`Doc.dictNoInfo`), or a well-formed record
  (`Doc.ok`, a keyed structure with an `info` section and an optional
  `renderpass` array).  Optional fields are `Option`s; Python `dict.get`
  with a default is `Option.getD`.
* The file system is the `Sys` structure: the JSON corpus directory is an
  association list from file name to document (the `json` directory prefix
  is dropped, so the path `json/<id>.json` is the key `<id>.json`), the
  `search_results` tag files are an association list from tag name to the
  list of shader ids in the file (line splitting is not under
  verification), and the parsed contents of the `requires_<cap>.txt` files
  (the result of `load_requires_file`, whose line parsing is not under
  verification) are the function `reqFiles`.
* The pickle cache file is `Option CacheBlob`; `CacheBlob.corrupt` is a
  blob on which `pickle.load` raises.
* Python `set` accumulation is modelled by insertion-ordered
  duplicate-free lists (`addCap`), a deterministic refinement; all
  claims about the accumulated sets are membership statements.
* Python string operations are re-implemented on `List Char`
  (`pyLower`, `pyIn` for the `in` operator, `pyStartsWith`, `pyEndsWith`,
  `pyReplaceJson` for `.replace('.json', '')`).  Lowercasing is ASCII.
-/

/-- Prefix test on character lists (the matching step of Python
`str.startswith` and of substring search). -/
def charsPre : List Char → List Char → Bool
  | [], _ => true
  | _ :: _, [] => false
  | a :: s, b :: t => a == b && charsPre s t

/-- Substring test on character lists (Python `in` on strings). -/
def charsInf : List Char → List Char → Bool
  | pat, [] => pat.isEmpty
  | pat, c :: t => charsPre pat (c :: t) || charsInf pat t

/-- Python `sub in s` for strings. -/
def pyIn (sub s : String) : Bool := charsInf sub.data s.data

/-- Python `s.startswith(pre)`. -/
def pyStartsWith (s pre : String) : Bool := charsPre pre.data s.data

/-- Python `s.endswith(suf)`. -/
def pyEndsWith (s suf : String) : Bool :=
  charsPre suf.data (s.data.drop (s.data.length - suf.data.length))

/-- ASCII lowercasing of one character (the case used by the corpus). -/
def lowerChar (c : Char) : Char :=
  if 'A' ≤ c ∧ c ≤ 'Z' then Char.ofNat (c.toNat + 32) else c

/-- Python `s.lower()` (ASCII). -/
def pyLower (s : String) : String := ⟨s.data.map lowerChar⟩

/-- One left-to-right pass of Python `s.replace('.json', '')` over a
character list.  The first argument is fuel; called with fuel at least the
length of the list (as `pyReplaceJson` does) it never hits the fuel-0 arm,
so the function agrees with the natural length-decreasing recursion while
staying structurally recursive. -/
def stripJsonFuel : Nat → List Char → List Char
  | 0, l => l
  | _ + 1, [] => []
  | fuel + 1, c :: t =>
    if charsPre ['.', 'j', 's', 'o', 'n'] (c :: t) then stripJsonFuel fuel (t.drop 4)
    else c :: stripJsonFuel fuel t

/-- Python `s.replace('.json', '')`: removes every (left-to-right,
non-overlapping) occurrence of `.json`, not only a final extension. -/
def pyReplaceJson (s : String) : String := ⟨stripJsonFuel s.data.length s.data⟩

/-- Python `x in l` for a list of strings. -/
def hasStr : List String → String → Bool
  | [], _ => false
  | y :: t, x => if y = x then true else hasStr t x

/-- Lookup in a string-keyed association list (first occurrence wins,
like a Python `dict`). -/
def assocGet {β : Type} : List (String × β) → String → Option β
  | [], _ => none
  | (k, v) :: t, key => if k = key then some v else assocGet t key

/-- Update in a string-keyed association list: replaces the first entry
with the key in place, appends when absent (Python `dict` assignment /
writing a file). -/
def assocSet {β : Type} : List (String × β) → String → β → List (String × β)
  | [], key, v => [(key, v)]
  | (k, w) :: t, key, v => if k = key then (key, v) :: t else (k, w) :: assocSet t key v

/-- One entry of the `conditions_met` list of `search`: present exactly
when the corresponding `requires_*` flag is set. -/
def condItem (b x : Bool) : List Bool := if b then [x] else []

/-- A conditional filtering step of `search`: when the predicate of a
filter is supplied, intersect the running id set with the ids satisfying
it, otherwise leave the set alone. -/
def condFilter (b : Bool) (p : String → Bool) (l : List String) : List String :=
  if b = true then l.filter p else l

/-- Python truthiness of an optional string argument (`None` and the empty
string are falsy). -/
def truthyStr : Option String → Bool
  | none => false
  | some s => if s = "" then false else true

/-- The `info` section of a shader JSON document. -/
structure Info where
  id : Option String
  name : Option String
  username : Option String
  description : Option String
  tags : Option (List String)
  requires : Option (List String)
deriving DecidableEq

/-- One input descriptor of a render pass (`type`, `filepath`, `sampler`). -/
structure Input where
  type : Option String
  filepath : Option String
  sampler : Option (List (String × String))
deriving DecidableEq

/-- One render pass: its own `type` and its `inputs` array. -/
structure RenderPass where
  type : Option String
  inputs : Option (List Input)
deriving DecidableEq

/-- A well-formed shader document: a keyed structure with an `info`
section and an optional `renderpass` array. -/
structure ShaderDoc where
  info : Info
  renderpass : Option (List RenderPass)
deriving DecidableEq

/-- A JSON document on disk, as the tool classifies it. -/
inductive Doc where
  | malformed
  | notDict
  | dictNoInfo
  | ok (sd : ShaderDoc)
deriving DecidableEq

/-- Is the document a keyed structure with an `info` section? -/
def Doc.isOk : Doc → Bool
  | Doc.ok _ => true
  | _ => false

/-- One record of the shader index (`shader_index[shader_id]`). -/
structure SRecord where
  filepath : String
  name : String
  username : String
  description : String
  tags : List String
deriving DecidableEq

/-- The tag mapping: tag name to list of shader ids. -/
abbrev TagAssoc := List (String × List String)

/-- The shader index: shader id to record. -/
abbrev ShaderIdx := List (String × SRecord)

/-- The JSON corpus directory: file name to document. -/
abbrev Files := List (String × Doc)

/-- The pickled cache container, with its two optional slots. -/
inductive CacheBlob where
  | corrupt
  | valid (tag_cache : Option TagAssoc) (shader_index : Option ShaderIdx)
deriving DecidableEq

/-- The state the tool operates on: the corpus, the tag-association
files, the parsed `requires_*` files, the cache file, the searcher's
`tag_cache` field and a corpus-scan counter (instrumentation only). -/
structure Sys where
  jsonFiles : Files
  tagFiles : TagAssoc
  reqFiles : String → List String
  cacheFile : Option CacheBlob
  tagFld : TagAssoc
  scans : Nat

/-- The argument record of `ShaderSearcher.search`. -/
structure Query where
  tags : Option String
  name : Option String
  author : Option String
  description : Option String
  requires_buffer : Bool
  requires_cubemap : Bool
  requires_image : Bool
  requires_imagebuf : Bool
  requires_keyboard : Bool
  requires_library : Bool
  requires_mic : Bool
  requires_music : Bool
  requires_musicstream : Bool
  requires_sound : Bool
  requires_soundbuf : Bool
  requires_texture : Bool
  requires_video : Bool
  requires_volume : Bool
  requires_webcam : Bool
  requires_common : Bool
  force_rebuild : Bool

/-- A query with nothing supplied (all argument defaults of `search`). -/
def emptyQuery : Query :=
  ⟨none, none, none, none, false, false, false, false, false, false, false, false,
    false, false, false, false, false, false, false, false, false⟩

/-- A query supplying only the `tags` text filter. -/
def tagsOnlyQuery (t : String) : Query := { emptyQuery with tags := some t }

/-- The sixteen capability filters of `search`. -/
inductive Cap where
  | buffer
  | cubemap
  | image
  | imagebuf
  | keyboard
  | library
  | mic
  | music
  | musicstream
  | sound
  | soundbuf
  | texture
  | video
  | volume
  | webcam
  | common

/-- The capability name passed to `load_requires_file` for each filter. -/
def capName : Cap → String
  | Cap.buffer => "buffer"
  | Cap.cubemap => "cubemap"
  | Cap.image => "image"
  | Cap.imagebuf => "imagebuf"
  | Cap.keyboard => "keyboard"
  | Cap.library => "library"
  | Cap.mic => "mic"
  | Cap.music => "music"
  | Cap.musicstream => "musicstream"
  | Cap.sound => "sound"
  | Cap.soundbuf => "soundbuf"
  | Cap.texture => "texture"
  | Cap.video => "video"
  | Cap.volume => "volume"
  | Cap.webcam => "webcam"
  | Cap.common => "common"

/-- The inferred string `search` looks for in the document's `requires`
list for each capability filter (`buffer` and `image` map to `imagebuf`,
`common` maps to `library`, the rest as written in the source). -/
def capString : Cap → String
  | Cap.buffer => "imagebuf"
  | Cap.cubemap => "cubemap"
  | Cap.image => "imagebuf"
  | Cap.imagebuf => "imagebuf"
  | Cap.keyboard => "keyboardbuf"
  | Cap.library => "library"
  | Cap.mic => "micbuf"
  | Cap.music => "musicbuf"
  | Cap.musicstream => "musicstreambuf"
  | Cap.sound => "soundbuf"
  | Cap.soundbuf => "soundbuf"
  | Cap.texture => "texturebuf"
  | Cap.video => "videobuf"
  | Cap.volume => "volumebuf"
  | Cap.webcam => "webcambuf"
  | Cap.common => "library"

/-- Which capability filters a query has set. -/
def Query.hasCap (q : Query) : Cap → Bool
  | Cap.buffer => q.requires_buffer
  | Cap.cubemap => q.requires_cubemap
  | Cap.image => q.requires_image
  | Cap.imagebuf => q.requires_imagebuf
  | Cap.keyboard => q.requires_keyboard
  | Cap.library => q.requires_library
  | Cap.mic => q.requires_mic
  | Cap.music => q.requires_music
  | Cap.musicstream => q.requires_musicstream
  | Cap.sound => q.requires_sound
  | Cap.soundbuf => q.requires_soundbuf
  | Cap.texture => q.requires_texture
  | Cap.video => q.requires_video
  | Cap.volume => q.requires_volume
  | Cap.webcam => q.requires_webcam
  | Cap.common => q.requires_common

/-- Add one capability string to the accumulated `required_resources` set
(Python `set.add`, as an insertion-ordered duplicate-free list). -/
def addCap (l : List String) (x : String) : List String :=
  if hasStr l x = true then l else l ++ [x]

/-- The type-to-capability mapping block of the inferencer, applied to an
already lowercased type string.  The identical block appears in the source
once for input types and once for pass types. -/
def typeStep (acc : List String) (t : String) : List String :=
  if t = "image" ∨ t = "buffer" then addCap acc "imagebuf"
  else if t = "sound" then addCap acc "soundbuf"
  else if t = "common" then addCap acc "library"
  else if t = "cubemap" then addCap acc "cubemap"
  else if t = "" then acc
  else addCap acc (t ++ "buf")

/-- Processing of one input descriptor by the inferencer: the type
mapping, then the filepath heuristic.  The `sampler` metadata is read
(into `_sampler_info`) but never used, exactly as in the source. -/
def inferInput (acc : List String) (inp : Input) : List String :=
  let _sampler_info := inp.sampler.getD []
  let acc1 := typeStep acc (pyLower (inp.type.getD ""))
  let fp := inp.filepath.getD ""
  if pyIn "/media/" fp = true ∨ pyIn "cubemap" (pyLower fp) = true then addCap acc1 "texture"
  else acc1

/-- Processing of one render pass: all inputs first, then the pass's own
type. -/
def inferPass (acc : List String) (p : RenderPass) : List String :=
  let acc1 := (p.inputs.getD []).foldl inferInput acc
  typeStep acc1 (pyLower (p.type.getD ""))

/-- The resource-requirement inferencer: the `required_resources` set
accumulated over a shader's render-pass list. -/
def inferRequires (ps : List RenderPass) : List String := ps.foldl inferPass []

/-- Erase the sampler metadata of one input. -/
def stripInput (i : Input) : Input := { i with sampler := none }

/-- Erase the sampler metadata of one render pass. -/
def stripPass (p : RenderPass) : RenderPass :=
  { p with inputs := p.inputs.map (fun l => l.map stripInput) }

/-- Erase all sampler metadata of a render-pass list; two lists differ
only in sampler metadata exactly when their erasures are equal. -/
def stripSamplers (ps : List RenderPass) : List RenderPass := ps.map stripPass

/-- Modelled from the spec (section 4.1), for comparison with the code's
inferencer: the capability set contributed by one (lowercased) type
field. -/
def specTypeCaps (t : String) : Finset String :=
  let tl := pyLower t
  if tl = "image" ∨ tl = "buffer" then {"imagebuf"}
  else if tl = "sound" then {"soundbuf"}
  else if tl = "common" then {"library"}
  else if tl = "cubemap" then {"cubemap"}
  else if tl = "" then ∅
  else {tl ++ "buf"}

/-- Modelled from the spec: the capability set contributed by one input
descriptor — its type mapping plus `texture` when the filepath contains
`/media/` or contains `cubemap` case-insensitively. -/
def specInputCaps (inp : Input) : Finset String :=
  specTypeCaps (inp.type.getD "") ∪
    (if pyIn "/media/" (inp.filepath.getD "") = true ∨
        pyIn "cubemap" (pyLower (inp.filepath.getD "")) = true then {"texture"} else ∅)

/-- Modelled from the spec: the capability set contributed by one render
pass — its own type mapping plus the union over its inputs. -/
def specPassCaps (p : RenderPass) : Finset String :=
  specTypeCaps (p.type.getD "") ∪
    (p.inputs.getD []).foldr (fun i acc => specInputCaps i ∪ acc) ∅

/-- Modelled from the spec: the union, over all passes and all their
inputs, of the contributed capability sets. -/
def specInferRequires (ps : List RenderPass) : Finset String :=
  ps.foldr (fun p acc => specPassCaps p ∪ acc) ∅

/-- The index record built for one well-formed document
(`load_all_json_metadata`, rebuild path). -/
def mkRecord (fn : String) (sd : ShaderDoc) : SRecord :=
  { filepath := fn
    name := sd.info.name.getD ""
    username := sd.info.username.getD ""
    description := sd.info.description.getD ""
    tags := sd.info.tags.getD [] }

/-- Shader id resolution of the index builder: the id declared inside
`info` when present, else the file name with `.json` removed by Python
`str.replace` (every occurrence, not only the extension). -/
def resolveId (fn : String) (sd : ShaderDoc) : String :=
  sd.info.id.getD (pyReplaceJson fn)

/-- The scan loop of the index builder over the globbed `*.json` files:
well-formed documents are inserted under their resolved id, everything
else is skipped. -/
def buildGo (acc : ShaderIdx) : Files → ShaderIdx
  | [] => acc
  | (fn, d) :: t =>
    if pyEndsWith fn ".json" = true then
      match d with
      | Doc.ok sd => buildGo (assocSet acc (resolveId fn sd) (mkRecord fn sd)) t
      | _ => buildGo acc t
    else buildGo acc t

/-- The shader index builder (rebuild path of `load_all_json_metadata`). -/
def buildIndex (files : Files) : ShaderIdx := buildGo [] files

/-- The cached index `load_all_json_metadata` returns early, when there is
one: only with `force_rebuild` false, a loadable blob and a populated
`shader_index` slot. -/
def cachedIdx (force : Bool) (c : Option CacheBlob) : Option ShaderIdx :=
  if force then none
  else
    match c with
    | some (CacheBlob.valid _ (some si)) => some si
    | _ => none

/-- The `cache_data` dictionary `load_all_json_metadata` holds when it
reaches its cache write: the loaded blob's `tag_cache` slot when the blob
was read and loadable (only attempted with `force_rebuild` false), else
nothing. -/
def cacheTagSlotForWrite (force : Bool) (c : Option CacheBlob) : Option TagAssoc :=
  if force then none
  else
    match c with
    | some (CacheBlob.valid tc _) => tc
    | _ => none

/-- `ShaderSearcher.load_all_json_metadata`: return the cached index when
allowed, else rebuild from the corpus (one scan) and persist the result
into the cache container. -/
def load_all_json_metadata (force : Bool) (sys : Sys) : ShaderIdx × Sys :=
  match cachedIdx force sys.cacheFile with
  | some si => (si, sys)
  | none =>
    let idx := buildIndex sys.jsonFiles
    (idx,
      { sys with
        cacheFile := some (CacheBlob.valid (cacheTagSlotForWrite force sys.cacheFile) (some idx))
        scans := sys.scans + 1 })

/-- `ShaderSearcher.build_tag_mappings`: return the cached tag mapping
when the blob loads and has the slot; else rebuild from the
`search_results` files and persist — reloading the existing blob first so
only the `tag_cache` slot is replaced, and skipping the write entirely
when that reload raises.  In every case the searcher's `tag_cache` field
is set to the returned mapping. -/
def build_tag_mappings (sys : Sys) : TagAssoc × Sys :=
  match sys.cacheFile with
  | some (CacheBlob.valid (some tc) _) => (tc, { sys with tagFld := tc })
  | some (CacheBlob.valid none si) =>
    (sys.tagFiles,
      { sys with cacheFile := some (CacheBlob.valid (some sys.tagFiles) si), tagFld := sys.tagFiles })
  | some CacheBlob.corrupt => (sys.tagFiles, { sys with tagFld := sys.tagFiles })
  | none =>
    (sys.tagFiles,
      { sys with cacheFile := some (CacheBlob.valid (some sys.tagFiles) none), tagFld := sys.tagFiles })

/-- The `tag_cache` slot of a cache blob, as seen by a reader. -/
def tagSlot : Option CacheBlob → Option TagAssoc
  | some (CacheBlob.valid tc _) => tc
  | _ => none

/-- The `shader_index` slot of a cache blob, as seen by a reader. -/
def idxSlot : Option CacheBlob → Option ShaderIdx
  | some (CacheBlob.valid _ si) => si
  | _ => none

/-- One (tag, shader id) step of the mutator's tag pass: if the backing
document `<id>.json` exists and is a keyed structure with `info`, append
the tag to its `tags` list when absent and persist; report whether the
document changed. -/
def tagDocStep (fs : Files) (tag sid : String) : Files × Bool :=
  match assocGet fs (sid ++ ".json") with
  | some (Doc.ok sd) =>
    let tags := sd.info.tags.getD []
    if hasStr tags tag = true then (fs, false)
    else
      (assocSet fs (sid ++ ".json")
        (Doc.ok { sd with info := { sd.info with tags := some (tags ++ [tag]) } }), true)
  | _ => (fs, false)

/-- The tag pass over the ids of one tag. -/
def tagIdsGo (tag : String) : List String → Files → Nat → Files × Nat
  | [], fs, n => (fs, n)
  | sid :: rest, fs, n =>
    let step := tagDocStep fs tag sid
    tagIdsGo tag rest step.1 (if step.2 = true then n + 1 else n)

/-- The tag pass over the whole tag mapping. -/
def tagPassGo : TagAssoc → Files → Nat → Files × Nat
  | [], fs, n => (fs, n)
  | (tag, ids) :: rest, fs, n =>
    let step := tagIdsGo tag ids fs n
    tagPassGo rest step.1 step.2

/-- The first pass of `add_requires_info_to_jsons`: merge the tag mapping
into the corpus documents, counting one per (tag, shader id) pair that
changed a document. -/
def tagPass (tm : TagAssoc) (fs : Files) : Files × Nat := tagPassGo tm fs 0

/-- Append the missing inferred strings to the document's `requires`
list, preserving existing entries and adding no duplicates. -/
def addMissing (cur : List String) : List String → List String
  | [] => cur
  | r :: t => addMissing (if hasStr cur r = true then cur else cur ++ [r]) t

/-- One document step of the mutator's requires pass: for a well-formed
document with a `renderpass` section, run the inferencer, append the
missing strings and persist only if the list grew. -/
def reqDocStep (fs : Files) (fn : String) : Files × Bool :=
  match assocGet fs fn with
  | some (Doc.ok sd) =>
    match sd.renderpass with
    | some rps =>
      let cur := sd.info.requires.getD []
      let upd := addMissing cur (inferRequires rps)
      if cur.length < upd.length then
        (assocSet fs fn (Doc.ok { sd with info := { sd.info with requires := some upd } }), true)
      else (fs, false)
    | none => (fs, false)
  | _ => (fs, false)

/-- The requires pass over the directory listing (only `*.json` names). -/
def reqPassGo : List String → Files → Nat → Files × Nat
  | [], fs, n => (fs, n)
  | fn :: rest, fs, n =>
    if pyEndsWith fn ".json" = true then
      let step := reqDocStep fs fn
      reqPassGo rest step.1 (if step.2 = true then n + 1 else n)
    else reqPassGo rest fs n

/-- The second pass of `add_requires_info_to_jsons`, over the corpus
directory listing taken before the pass runs. -/
def requiresPass (fs : Files) : Files × Nat := reqPassGo (fs.map Prod.fst) fs 0

/-- `ShaderSearcher.add_requires_info_to_jsons`: build the tag mapping,
run the tag pass, then the requires pass; return the two updated counts
and the mutated state. -/
def add_requires_info_to_jsons (sys : Sys) : (Nat × Nat) × Sys :=
  let tm := (build_tag_mappings sys).1
  let sys1 := (build_tag_mappings sys).2
  let tagged := tagPass tm sys1.jsonFiles
  let reqd := requiresPass tagged.1
  ((tagged.2, reqd.2), { sys1 with jsonFiles := reqd.1 })

/-- The index `search` works with (step 1 of the query engine). -/
def loadedIdx (sys : Sys) (q : Query) : ShaderIdx :=
  (load_all_json_metadata q.force_rebuild sys).1

/-- The state after `search` loaded the index. -/
def loadedSys (sys : Sys) (q : Query) : Sys :=
  (load_all_json_metadata q.force_rebuild sys).2

/-- The tag mapping `search` works with: loaded via `build_tag_mappings`
only when no rebuild was requested, else the searcher's current
`tag_cache` field. -/
def loadedTagMap (sys : Sys) (q : Query) : TagAssoc :=
  if q.force_rebuild = true then (loadedSys sys q).tagFld
  else (build_tag_mappings (loadedSys sys q)).1

/-- One step of the tag-filter loop over the cached tag mapping: append
the cached tag name to `all_tags` when the shader is in its id set, the
lowercased name starts with the lowercased filter, and it is not already
collected. -/
def collectStep (tagLower sid : String) (acc : List String) (p : String × List String) :
    List String :=
  if hasStr p.2 sid = true ∧ pyStartsWith (pyLower p.1) tagLower = true then
    (if hasStr acc p.1 = true then acc else acc ++ [p.1])
  else acc

/-- The `all_tags` list of the tags filter: the record's own tags plus the
matching cached tag names. -/
def collectTags (tm : TagAssoc) (tagLower sid : String) (recTags : List String) : List String :=
  tm.foldl (collectStep tagLower sid) recTags

/-- The tags-filter predicate of `search` for one shader id. -/
def tagsPred (sys : Sys) (q : Query) (sid : String) : Bool :=
  match assocGet (loadedIdx sys q) sid with
  | some rec =>
    (collectTags (loadedTagMap sys q) (pyLower (q.tags.getD "")) sid rec.tags).any
      (fun tg => pyIn (pyLower (q.tags.getD "")) (pyLower tg))
  | none => false

/-- The name-filter predicate of `search`. -/
def namePred (sys : Sys) (q : Query) (sid : String) : Bool :=
  match assocGet (loadedIdx sys q) sid with
  | some rec => pyIn (pyLower (q.name.getD "")) (pyLower rec.name)
  | none => false

/-- The author-filter predicate of `search` (matched against the record's
username). -/
def authorPred (sys : Sys) (q : Query) (sid : String) : Bool :=
  match assocGet (loadedIdx sys q) sid with
  | some rec => pyIn (pyLower (q.author.getD "")) (pyLower rec.username)
  | none => false

/-- The description-filter predicate of `search`. -/
def descPred (sys : Sys) (q : Query) (sid : String) : Bool :=
  match assocGet (loadedIdx sys q) sid with
  | some rec => pyIn (pyLower (q.description.getD "")) (pyLower rec.description)
  | none => false

/-- The id set surviving the text filters of `search` (steps 2 and 3 of
the query engine): the full key set, narrowed by each supplied text
filter in source order. -/
def textIds (sys : Sys) (q : Query) : List String :=
  condFilter (truthyStr q.description) (descPred sys q)
    (condFilter (truthyStr q.author) (authorPred sys q)
      (condFilter (truthyStr q.name) (namePred sys q)
        (condFilter (truthyStr q.tags) (tagsPred sys q)
          ((loadedIdx sys q).map Prod.fst))))

/-- The guard of the capability-filter step: the disjunction of the
sixteen `requires_*` flags, in source order. -/
def anyCapFlag (q : Query) : Bool :=
  q.requires_buffer || q.requires_cubemap || q.requires_image || q.requires_imagebuf ||
  q.requires_keyboard || q.requires_library || q.requires_mic || q.requires_music ||
  q.requires_musicstream || q.requires_sound || q.requires_soundbuf || q.requires_texture ||
  q.requires_video || q.requires_volume || q.requires_webcam || q.requires_common

/-- The `conditions_met` list of the capability-filter step, one appended
entry per set flag, in source order; `rf` is the `load_requires_file`
result, `rl` the freshly re-read `requires` list. -/
def capConds (rf : String → List String) (q : Query) (sid : String) (rl : List String) :
    List Bool :=
  condItem q.requires_buffer (hasStr (rf "buffer") sid || hasStr rl "imagebuf") ++
  condItem q.requires_cubemap (hasStr (rf "cubemap") sid || hasStr rl "cubemap") ++
  condItem q.requires_image (hasStr (rf "image") sid || hasStr rl "imagebuf") ++
  condItem q.requires_imagebuf (hasStr (rf "imagebuf") sid || hasStr rl "imagebuf") ++
  condItem q.requires_keyboard (hasStr (rf "keyboard") sid || hasStr rl "keyboardbuf") ++
  condItem q.requires_library (hasStr (rf "library") sid || hasStr rl "library") ++
  condItem q.requires_mic (hasStr (rf "mic") sid || hasStr rl "micbuf") ++
  condItem q.requires_music (hasStr (rf "music") sid || hasStr rl "musicbuf") ++
  condItem q.requires_musicstream (hasStr (rf "musicstream") sid || hasStr rl "musicstreambuf") ++
  condItem q.requires_sound (hasStr (rf "sound") sid || hasStr rl "soundbuf") ++
  condItem q.requires_soundbuf (hasStr (rf "soundbuf") sid || hasStr rl "soundbuf") ++
  condItem q.requires_texture (hasStr (rf "texture") sid || hasStr rl "texturebuf") ++
  condItem q.requires_video (hasStr (rf "video") sid || hasStr rl "videobuf") ++
  condItem q.requires_volume (hasStr (rf "volume") sid || hasStr rl "volumebuf") ++
  condItem q.requires_webcam (hasStr (rf "webcam") sid || hasStr rl "webcambuf") ++
  condItem q.requires_common (hasStr (rf "common") sid || hasStr rl "library")

/-- The per-shader keep decision of the capability-filter step: all
conditions must hold, or no requirement was checked.  In the source
`any_requirement_checked` is set inside each taken flag branch, so after
the chain it equals the disjunction of the flags, `anyCapFlag`. -/
def capKeep (rf : String → List String) (q : Query) (sid : String) (rl : List String) : Bool :=
  (anyCapFlag q && (capConds rf q sid rl).all (fun b => b)) || !anyCapFlag q

/-- The `requires` list read from a document (`[]` on any failure or
missing section, as the `except` branch produces). -/
def docReqList : Option Doc → List String
  | some (Doc.ok sd) => sd.info.requires.getD []
  | _ => []

/-- The capability-filter predicate of `search` for one shader id:
re-read the backing document at the record's filepath, then check all
requested capabilities. -/
def capPred (sys : Sys) (idx : ShaderIdx) (q : Query) (sid : String) : Bool :=
  match assocGet idx sid with
  | some rec => capKeep sys.reqFiles q sid (docReqList (assocGet sys.jsonFiles rec.filepath))
  | none => false

/-- The id set returned by `ShaderSearcher.search` (its `results` list is
these ids paired with their index records). -/
def searchIds (sys : Sys) (q : Query) : List String :=
  condFilter (anyCapFlag q) (capPred sys (loadedIdx sys q) q) (textIds sys q)

/-- The `requires` list the capability step reads fresh from the backing
document of a shader id (empty when the id is not in the index). -/
def freshReqList (sys : Sys) (q : Query) (sid : String) : List String :=
  match assocGet (loadedIdx sys q) sid with
  | some rec => docReqList (assocGet sys.jsonFiles rec.filepath)
  | none => []

/-- No predicate supplied: no truthy text filter and no capability flag. -/
def noPredicates (q : Query) : Bool :=
  !truthyStr q.tags && !truthyStr q.name && !truthyStr q.author &&
  !truthyStr q.description && !anyCapFlag q

/-- A document, as far as the requires pass is concerned, is saturated
when its `requires` list already contains everything the inferencer
derives from its render passes. -/
def saturatedDoc (d : Doc) : Prop :=
  ∀ sd rps, d = Doc.ok sd → sd.renderpass = some rps →
    ∀ x, hasStr (inferRequires rps) x = true → hasStr (sd.info.requires.getD []) x = true

/-- Saturation of the document stored under one file name. -/
def satAt (fs : Files) (fn : String) : Prop :=
  ∀ d, assocGet fs fn = some d → saturatedDoc d

/-- A two-shader corpus for exercising the capability filter: both by
author `jon`, one whose document requires `soundbuf`. -/
def c1sys : Sys :=
  { jsonFiles :=
      [("A.json",
        Doc.ok ⟨⟨some "A", some "sound toy", some "jon", some "", some [], some ["soundbuf"]⟩, none⟩),
       ("B.json", Doc.ok ⟨⟨some "B", some "quiet", some "jon", some "", some [], none⟩, none⟩)]
    tagFiles := []
    reqFiles := fun _ => []
    cacheFile := none
    tagFld := []
    scans := 0 }

/-- A query combining a text filter with a capability filter. -/
def c1query : Query := { emptyQuery with author := some "jon", requires_sound := true }

/-- A one-shader corpus. -/
def c2sys : Sys :=
  { jsonFiles := [("X.json", Doc.ok ⟨⟨some "X", some "Glow", some "iq", some "", some [], none⟩, none⟩)]
    tagFiles := []
    reqFiles := fun _ => []
    cacheFile := none
    tagFld := []
    scans := 0 }

/-- An index record for the cache-hit example. -/
def c4rec : SRecord := ⟨"X.json", "Glow", "iq", "", []⟩

/-- An index for the cache-hit example. -/
def c4idx : ShaderIdx := [("X", c4rec)]

/-- A state whose cache already holds a `shader_index` slot. -/
def c4sys : Sys :=
  { jsonFiles := []
    tagFiles := []
    reqFiles := fun _ => []
    cacheFile := some (CacheBlob.valid none (some c4idx))
    tagFld := []
    scans := 0 }

/-- A well-formed document for the index-builder example. -/
def c5sd : ShaderDoc := ⟨⟨some "S", some "n", none, none, none, none⟩, none⟩

/-- A corpus where two tag files list the same shader id: the failing
input for the tags-updated count. -/
def c7sys : Sys :=
  { jsonFiles := [("X.json", Doc.ok ⟨⟨some "X", some "n", some "u", some "", some [], none⟩, none⟩)]
    tagFiles := [("a", ["X"]), ("b", ["X"])]
    reqFiles := fun _ => []
    cacheFile := none
    tagFld := []
    scans := 0 }

/-- The corpus of the tag-filter example: one shader with an empty JSON
tags list, listed by the tag-association file `procedural`. -/
def c8sys : Sys :=
  { jsonFiles :=
      [("XsBSRd.json", Doc.ok ⟨⟨some "XsBSRd", some "", some "", some "", some [], none⟩, none⟩)]
    tagFiles := [("procedural", ["XsBSRd"])]
    reqFiles := fun _ => []
    cacheFile := none
    tagFld := []
    scans := 0 }

/-- The index record the builder produces for the tag-filter example. -/
def c8rec : SRecord := ⟨"XsBSRd.json", "", "", "", []⟩

/-- A tag mapping stored in the cache's `tag_cache` slot. -/
def c9tag : TagAssoc := [("procedural", ["X"])]

/-- A state whose cache holds only a `tag_cache` slot. -/
def c9sys : Sys :=
  { jsonFiles := []
    tagFiles := []
    reqFiles := fun _ => []
    cacheFile := some (CacheBlob.valid (some c9tag) none)
    tagFld := []
    scans := 0 }

/-- A render-pass list with sampler metadata. -/
def c10passA : List RenderPass :=
  [⟨some "image", some [⟨some "buffer", some "bufA.png", some [("filter", "linear")]⟩]⟩]

/-- The same render-pass list with different sampler metadata. -/
def c10passB : List RenderPass :=
  [⟨some "image", some [⟨some "buffer", some "bufA.png", some [("filter", "nearest")]⟩]⟩]

lemma hasStr_iff (l : List String) (x : String) : hasStr l x = true ↔ x ∈ l := by
  induction l with
  | nil => simp [hasStr]
  | cons a t ih =>
    by_cases h : a = x
    · subst h; simp [hasStr]
    · simp [hasStr, h, ih, Ne.symm h]

lemma assocGet_set_self {β : Type} (l : List (String × β)) (k : String) (v : β) :
    assocGet (assocSet l k v) k = some v := by
  induction l with
  | nil => simp [assocGet, assocSet]
  | cons p t ih =>
    by_cases h : p.1 = k
    · simp [assocSet, h, assocGet]
    · simp [assocSet, h, assocGet, ih]

lemma assocGet_set_ne {β : Type} (l : List (String × β)) (k k' : String) (v : β)
    (h : k' ≠ k) : assocGet (assocSet l k v) k' = assocGet l k' := by
  induction l with
  | nil => simp [assocGet, assocSet, Ne.symm h]
  | cons p t ih =>
    rcases p with ⟨a, b⟩
    by_cases hk : a = k
    · subst hk
      simp [assocSet, assocGet, Ne.symm h]
    · by_cases hk' : a = k'
      · simp [assocSet, hk, assocGet, hk', h]
      · simp [assocSet, hk, assocGet, hk', ih]

lemma assocGet_some_mem {β : Type} {l : List (String × β)} {k : String} {v : β}
    (h : assocGet l k = some v) : k ∈ l.map Prod.fst := by
  induction l with
  | nil => simp [assocGet] at h
  | cons p t ih =>
    rcases p with ⟨a, b⟩
    rw [List.map_cons]
    by_cases hk : a = k
    · subst hk
      exact List.mem_cons_self a _
    · simp only [assocGet, if_neg hk] at h
      exact List.mem_cons_of_mem a (ih h)

lemma mem_keys_assocGet {β : Type} {l : List (String × β)} {k : String}
    (h : k ∈ l.map Prod.fst) : ∃ v, assocGet l k = some v := by
  induction l with
  | nil => simp at h
  | cons p t ih =>
    rcases p with ⟨a, b⟩
    by_cases hk : a = k
    · exact ⟨b, by simp [assocGet, hk]⟩
    · rw [List.map_cons] at h
      rcases List.mem_cons.mp h with h | h
      · exact absurd h.symm hk
      · rcases ih h with ⟨v, hv⟩
        exact ⟨v, by simp [assocGet, hk, hv]⟩

lemma condFilter_mem (b : Bool) (p : String → Bool) (l : List String) (sid : String) :
    sid ∈ condFilter b p l ↔ sid ∈ l ∧ (b = true → p sid = true) := by
  cases b <;> simp [condFilter, List.mem_filter]

lemma condFilter_false (b : Bool) (p : String → Bool) (l : List String) (h : b = false) :
    condFilter b p l = l := by
  simp [condFilter, h]

lemma condFilter_sub {b : Bool} {p : String → Bool} {l : List String} {sid : String}
    (h : sid ∈ condFilter b p l) : sid ∈ l :=
  ((condFilter_mem b p l sid).mp h).1

lemma charsPre_charsInf {p l : List Char} (h : charsPre p l = true) : charsInf p l = true := by
  cases l with
  | nil =>
    cases p with
    | nil => simp [charsInf]
    | cons a s => simp [charsPre] at h
  | cons c t => simp [charsInf, h]

lemma pyStartsWith_pyIn {s pre : String} (h : pyStartsWith s pre = true) :
    pyIn pre s = true :=
  charsPre_charsInf h

lemma mem_addCap (l : List String) (x y : String) :
    y ∈ addCap l x ↔ y ∈ l ∨ y = x := by
  unfold addCap
  split
  · next h =>
    constructor
    · exact Or.inl
    · rintro (hy | rfl)
      · exact hy
      · exact (hasStr_iff l y).mp h
  · simp

lemma mem_typeStep (acc : List String) (t : String) (y : String) :
    y ∈ typeStep acc (pyLower t) ↔ y ∈ acc ∨ y ∈ specTypeCaps t := by
  simp only [typeStep, specTypeCaps]
  split_ifs <;> simp [mem_addCap]

lemma mem_inferInput (acc : List String) (inp : Input) (y : String) :
    y ∈ inferInput acc inp ↔ y ∈ acc ∨ y ∈ specInputCaps inp := by
  simp only [inferInput, specInputCaps]
  split_ifs with h
  · simp [mem_addCap, mem_typeStep, h]
    tauto
  · simp [mem_typeStep, h]

lemma mem_foldl_inferInput (inps : List Input) (acc : List String) (y : String) :
    y ∈ inps.foldl inferInput acc ↔
      y ∈ acc ∨ y ∈ inps.foldr (fun i s => specInputCaps i ∪ s) ∅ := by
  induction inps generalizing acc with
  | nil => simp
  | cons i t ih =>
    simp only [List.foldl_cons, List.foldr_cons, ih, mem_inferInput, Finset.mem_union]
    tauto

lemma mem_inferPass (acc : List String) (p : RenderPass) (y : String) :
    y ∈ inferPass acc p ↔ y ∈ acc ∨ y ∈ specPassCaps p := by
  simp only [inferPass, specPassCaps, mem_typeStep, mem_foldl_inferInput, Finset.mem_union]
  tauto

lemma specInferRequires_cons (p : RenderPass) (t : List RenderPass) :
    specInferRequires (p :: t) = specPassCaps p ∪ specInferRequires t := rfl

lemma mem_foldl_inferPass (ps : List RenderPass) (acc : List String) (y : String) :
    y ∈ ps.foldl inferPass acc ↔ y ∈ acc ∨ y ∈ specInferRequires ps := by
  induction ps generalizing acc with
  | nil => simp [specInferRequires]
  | cons p t ih =>
    rw [List.foldl_cons, ih, mem_inferPass, specInferRequires_cons, Finset.mem_union]
    tauto

lemma inferInput_strip (acc : List String) (i : Input) :
    inferInput acc (stripInput i) = inferInput acc i := rfl

lemma inferPass_strip (acc : List String) (p : RenderPass) :
    inferPass acc (stripPass p) = inferPass acc p := by
  cases hp : p.inputs with
  | none => simp [inferPass, stripPass, hp]
  | some l => simp [inferPass, stripPass, hp, List.foldl_map, inferInput_strip]

lemma inferRequires_strip (ps : List RenderPass) :
    inferRequires (stripSamplers ps) = inferRequires ps := by
  simp [inferRequires, stripSamplers, List.foldl_map, inferPass_strip]

/-- C3: for every render-pass list, the inferencer's output equals the
union, over all passes and all their inputs, of the mapped type
contributions (`image`/`buffer` to `imagebuf`, `sound` to `soundbuf`,
`common` to `library`, `cubemap` to `cubemap`, any other non-empty type
`T` to lowercased `T` plus `buf`, applied case-insensitively to both
pass-level and input-level types) plus `texture` for each input whose
filepath contains `/media/` or contains `cubemap` case-insensitively;
absent types contribute nothing and the empty list yields the empty set. -/
theorem c3_inferencer_is_spec_union :
    (∀ ps, (inferRequires ps).toFinset = specInferRequires ps) ∧
      (inferRequires ([] : List RenderPass)).toFinset = ∅ := by
  constructor
  · intro ps
    ext y
    rw [List.mem_toFinset, inferRequires, mem_foldl_inferPass]
    simp
  · simp [inferRequires]

/-- C10: the inferencer does not depend on sampler metadata — two
render-pass lists that differ only in the `sampler` fields of their
inputs (their sampler erasures coincide) infer the same capability set. -/
theorem c10_sampler_independent (ps₁ ps₂ : List RenderPass)
    (h : stripSamplers ps₁ = stripSamplers ps₂) :
    inferRequires ps₁ = inferRequires ps₂ := by
  rw [← inferRequires_strip ps₁, ← inferRequires_strip ps₂, h]

/-- Witness for C10: two concrete pass lists differing only in sampler
metadata infer the same capabilities. -/
theorem c10_witness :
    stripSamplers c10passA = stripSamplers c10passB ∧
      inferRequires c10passA = inferRequires c10passB :=
  ⟨by decide, c10_sampler_independent c10passA c10passB (by decide)⟩

lemma condItem_all (b x : Bool) : (condItem b x).all (fun v => v) = (!b || x) := by
  cases b <;> simp [condItem]

lemma boolImp (b x : Bool) : ((!b || x) = true) ↔ (b = true → x = true) := by
  cases b <;> simp

lemma capConds_all_iff (rf : String → List String) (q : Query) (sid : String)
    (rl : List String) :
    ((capConds rf q sid rl).all (fun v => v) = true) ↔
      ∀ c : Cap, q.hasCap c = true →
        (hasStr (rf (capName c)) sid || hasStr rl (capString c)) = true := by
  simp only [capConds, List.all_append, condItem_all, Bool.and_eq_true, boolImp]
  constructor
  · intro h c hc
    obtain ⟨⟨⟨⟨⟨⟨⟨⟨⟨⟨⟨⟨⟨⟨⟨h1, h2⟩, h3⟩, h4⟩, h5⟩, h6⟩, h7⟩, h8⟩, h9⟩, h10⟩, h11⟩, h12⟩,
      h13⟩, h14⟩, h15⟩, h16⟩ := h
    cases c
    case buffer => exact h1 hc
    case cubemap => exact h2 hc
    case image => exact h3 hc
    case imagebuf => exact h4 hc
    case keyboard => exact h5 hc
    case library => exact h6 hc
    case mic => exact h7 hc
    case music => exact h8 hc
    case musicstream => exact h9 hc
    case sound => exact h10 hc
    case soundbuf => exact h11 hc
    case texture => exact h12 hc
    case video => exact h13 hc
    case volume => exact h14 hc
    case webcam => exact h15 hc
    case common => exact h16 hc
  · intro h
    exact ⟨⟨⟨⟨⟨⟨⟨⟨⟨⟨⟨⟨⟨⟨⟨h Cap.buffer, h Cap.cubemap⟩, h Cap.image⟩, h Cap.imagebuf⟩,
      h Cap.keyboard⟩, h Cap.library⟩, h Cap.mic⟩, h Cap.music⟩, h Cap.musicstream⟩,
      h Cap.sound⟩, h Cap.soundbuf⟩, h Cap.texture⟩, h Cap.video⟩, h Cap.volume⟩,
      h Cap.webcam⟩, h Cap.common⟩

lemma capKeep_iff (rf : String → List String) (q : Query) (sid : String)
    (rl : List String) (h : anyCapFlag q = true) :
    (capKeep rf q sid rl = true) ↔
      ∀ c : Cap, q.hasCap c = true →
        (hasStr (rf (capName c)) sid || hasStr rl (capString c)) = true := by
  rw [capKeep, h]
  simp only [Bool.true_and, Bool.not_true, Bool.or_false]
  exact capConds_all_iff rf q sid rl

lemma textIds_sub {sys : Sys} {q : Query} {sid : String} (h : sid ∈ textIds sys q) :
    sid ∈ (loadedIdx sys q).map Prod.fst := by
  simp only [textIds] at h
  exact condFilter_sub (condFilter_sub (condFilter_sub (condFilter_sub h)))

lemma capPred_eq (sys : Sys) (q : Query) (sid : String) (rec : SRecord)
    (hrec : assocGet (loadedIdx sys q) sid = some rec) :
    capPred sys (loadedIdx sys q) q sid =
      capKeep sys.reqFiles q sid (freshReqList sys q sid) := by
  simp only [capPred, freshReqList, hrec]

/-- C1: with at least one capability filter set, a shader id survives the
capability-filter step exactly when it survived the text filters and, for
every requested capability, it is in that capability's requires-file set
or the freshly re-read `requires` list of its backing document contains
the mapped inferred string (`capString`). -/
theorem c1_capability_filter_conjunction (sys : Sys) (q : Query) (sid : String)
    (h : anyCapFlag q = true) :
    sid ∈ searchIds sys q ↔
      sid ∈ textIds sys q ∧
        ∀ c : Cap, q.hasCap c = true →
          (hasStr (sys.reqFiles (capName c)) sid = true ∨
            hasStr (freshReqList sys q sid) (capString c) = true) := by
  unfold searchIds
  rw [condFilter_mem]
  constructor
  · rintro ⟨ht, hcp⟩
    refine ⟨ht, ?_⟩
    obtain ⟨rec, hrec⟩ := mem_keys_assocGet (textIds_sub ht)
    have hcp' := hcp h
    rw [capPred_eq sys q sid rec hrec] at hcp'
    intro c hc
    have hx := (capKeep_iff _ _ _ _ h).mp hcp' c hc
    simpa [Bool.or_eq_true] using hx
  · rintro ⟨ht, hall⟩
    refine ⟨ht, fun _ => ?_⟩
    obtain ⟨rec, hrec⟩ := mem_keys_assocGet (textIds_sub ht)
    rw [capPred_eq sys q sid rec hrec]
    refine (capKeep_iff _ _ _ _ h).mpr (fun c hc => ?_)
    have hx := hall c hc
    simpa [Bool.or_eq_true] using hx

/-- Witness for C1 at a concrete corpus, query (author plus
`requires_sound`) and shader id. -/
theorem c1_witness :
    anyCapFlag c1query = true ∧
      ("A" ∈ searchIds c1sys c1query ↔
        "A" ∈ textIds c1sys c1query ∧
          ∀ c : Cap, c1query.hasCap c = true →
            (hasStr (c1sys.reqFiles (capName c)) "A" = true ∨
              hasStr (freshReqList c1sys c1query "A") (capString c) = true)) :=
  ⟨by decide, c1_capability_filter_conjunction c1sys c1query "A" (by decide)⟩

/-- C2 (amended): with no predicates supplied and no rebuild requested,
the search operation returns every indexed id — the full record set, not
an empty result. -/
theorem c2_no_predicates_returns_all (sys : Sys) (q : Query)
    (h : noPredicates q = true) (_hf : q.force_rebuild = false) :
    searchIds sys q = (loadedIdx sys q).map Prod.fst := by
  have h' := h
  simp only [noPredicates, Bool.and_eq_true, Bool.not_eq_true'] at h'
  obtain ⟨⟨⟨⟨h1, h2⟩, h3⟩, h4⟩, h5⟩ := h'
  unfold searchIds textIds
  rw [condFilter_false _ _ _ h5, condFilter_false _ _ _ h4, condFilter_false _ _ _ h3,
    condFilter_false _ _ _ h2, condFilter_false _ _ _ h1]

/-- Witness for the amended C2 on a concrete one-record corpus. -/
theorem c2_witness :
    noPredicates emptyQuery = true ∧ emptyQuery.force_rebuild = false ∧
      searchIds c2sys emptyQuery = (loadedIdx c2sys emptyQuery).map Prod.fst :=
  ⟨by decide, by decide, c2_no_predicates_returns_all c2sys emptyQuery (by decide) (by decide)⟩

/-- Counterexample to C2 as stated: on a one-record corpus, the search
operation with no predicates returns that record's id — a non-empty, full
result instead of the claimed empty one. -/
theorem c2_counterexample :
    searchIds c2sys emptyQuery = ["X"] ∧ searchIds c2sys emptyQuery ≠ [] := by
  decide

/-- C4: building the index with a forced rebuild and persisting it, then
loading with `forceRebuild = false`, returns the same index and leaves
the state (scan counter included) untouched; and whenever `forceRebuild`
is false and a cached `shader_index` slot exists, it is returned
unchanged with no state change. -/
theorem c4_cache_round_trip (sys : Sys) :
    load_all_json_metadata false (load_all_json_metadata true sys).2 =
        load_all_json_metadata true sys ∧
      ∀ tc si, sys.cacheFile = some (CacheBlob.valid tc (some si)) →
        load_all_json_metadata false sys = (si, sys) := by
  constructor
  · simp [load_all_json_metadata, cachedIdx, cacheTagSlotForWrite]
  · intro tc si h
    simp [load_all_json_metadata, cachedIdx, h]

/-- Witness for C4 at a concrete cached state. -/
theorem c4_witness :
    c4sys.cacheFile = some (CacheBlob.valid none (some c4idx)) ∧
      load_all_json_metadata false c4sys = (c4idx, c4sys) :=
  ⟨rfl, (c4_cache_round_trip c4sys).2 none c4idx rfl⟩

/-- C9 (amended): persisting the tag mapping leaves any `shader_index`
slot unchanged; persisting the shader index without a forced rebuild
leaves any `tag_cache` slot unchanged; but a forced rebuild rewrites the
blob without reloading it, clearing any existing `tag_cache` slot. -/
theorem c9_slot_independence (sys : Sys) :
    idxSlot ((build_tag_mappings sys).2.cacheFile) = idxSlot sys.cacheFile ∧
      tagSlot ((load_all_json_metadata false sys).2.cacheFile) = tagSlot sys.cacheFile ∧
      tagSlot ((load_all_json_metadata true sys).2.cacheFile) = none := by
  rcases h : sys.cacheFile with _ | b
  · simp [build_tag_mappings, load_all_json_metadata, cachedIdx, cacheTagSlotForWrite,
      tagSlot, idxSlot, h]
  · cases b with
    | corrupt =>
      simp [build_tag_mappings, load_all_json_metadata, cachedIdx, cacheTagSlotForWrite,
        tagSlot, idxSlot, h]
    | valid tc si =>
      cases tc <;> cases si <;>
        simp [build_tag_mappings, load_all_json_metadata, cachedIdx, cacheTagSlotForWrite,
          tagSlot, idxSlot, h]

/-- Counterexample to C9 as stated: a forced rebuild persists the
`shader_index` slot but wipes the existing `tag_cache` slot. -/
theorem c9_counterexample :
    tagSlot c9sys.cacheFile = some c9tag ∧
      tagSlot ((load_all_json_metadata true c9sys).2.cacheFile) = none := by
  decide

lemma collect_mono (tm : TagAssoc) (tl sid : String) :
    ∀ (acc : List String) {x : String}, x ∈ acc → x ∈ tm.foldl (collectStep tl sid) acc := by
  induction tm with
  | nil => intro acc x h; simpa using h
  | cons p t ih =>
    intro acc x h
    rw [List.foldl_cons]
    apply ih
    unfold collectStep
    split_ifs <;> simp [h]

lemma collect_mem (tm : TagAssoc) (tl sid : String) :
    ∀ (acc : List String) {tagName : String} {ids : List String},
      (tagName, ids) ∈ tm → hasStr ids sid = true →
      pyStartsWith (pyLower tagName) tl = true →
      tagName ∈ tm.foldl (collectStep tl sid) acc := by
  induction tm with
  | nil => intro acc tagName ids h _ _; simp at h
  | cons p t ih =>
    intro acc tagName ids hmem hin hpre
    rw [List.foldl_cons]
    rcases List.mem_cons.mp hmem with h | h
    · subst h
      apply collect_mono
      unfold collectStep
      rw [if_pos ⟨hin, hpre⟩]
      split
      · next h' => exact (hasStr_iff _ _).mp h'
      · simp
    · exact ih _ h hin hpre

/-- C8 (amended): the tag mapping is loaded only when no rebuild is
requested; in that case a tag-association entry listing a shader id makes
a tags filter that is a case-insensitive prefix of the tag's name include
that shader, regardless of the record's own (possibly empty) tags list. -/
theorem c8_tag_file_inclusion_no_rebuild (sys : Sys) (t tagName sid : String)
    (ids : List String) (rec : SRecord)
    (_ht : truthyStr (some t) = true)
    (hidx : assocGet (loadedIdx sys (tagsOnlyQuery t)) sid = some rec)
    (htm : (tagName, ids) ∈ loadedTagMap sys (tagsOnlyQuery t))
    (hin : hasStr ids sid = true)
    (hpre : pyStartsWith (pyLower tagName) (pyLower t) = true) :
    sid ∈ searchIds sys (tagsOnlyQuery t) := by
  have hany : anyCapFlag (tagsOnlyQuery t) = false := rfl
  unfold searchIds
  rw [condFilter_false _ _ _ hany]
  unfold textIds
  have hdesc : truthyStr (tagsOnlyQuery t).description = false := rfl
  have hauth : truthyStr (tagsOnlyQuery t).author = false := rfl
  have hname : truthyStr (tagsOnlyQuery t).name = false := rfl
  rw [condFilter_false _ _ _ hdesc, condFilter_false _ _ _ hauth, condFilter_false _ _ _ hname]
  refine (condFilter_mem _ _ _ _).mpr ⟨assocGet_some_mem hidx, fun _ => ?_⟩
  simp only [tagsPred, hidx]
  refine List.any_eq_true.mpr ⟨tagName, ?_, ?_⟩
  · exact collect_mem _ _ _ _ htm hin hpre
  · exact pyStartsWith_pyIn hpre

/-- Witness for the amended C8: the spec's own example, a tag file
`procedural` listing `XsBSRd` found by `tags = "proc"` although the JSON
tags list is empty. -/
theorem c8_witness :
    truthyStr (some "proc") = true ∧
      assocGet (loadedIdx c8sys (tagsOnlyQuery "proc")) "XsBSRd" = some c8rec ∧
      ("procedural", ["XsBSRd"]) ∈ loadedTagMap c8sys (tagsOnlyQuery "proc") ∧
      hasStr ["XsBSRd"] "XsBSRd" = true ∧
      pyStartsWith (pyLower "procedural") (pyLower "proc") = true ∧
      "XsBSRd" ∈ searchIds c8sys (tagsOnlyQuery "proc") :=
  ⟨by decide, by decide, by decide, by decide, by decide,
    c8_tag_file_inclusion_no_rebuild c8sys "proc" "procedural" "XsBSRd" ["XsBSRd"] c8rec
      (by decide) (by decide) (by decide) (by decide) (by decide)⟩

/-- Counterexample to C8 as stated: the very same corpus and tags filter
include the shader without a rebuild but exclude it when the invocation
requests an index rebuild, because step 1 then skips loading the tag
mapping. -/
theorem c8_counterexample :
    ("XsBSRd" ∈ searchIds c8sys (tagsOnlyQuery "proc")) ∧
      ¬("XsBSRd" ∈ searchIds c8sys { tagsOnlyQuery "proc" with force_rebuild := true }) := by
  decide

lemma buildGo_filter (files : Files) :
    ∀ acc, buildGo acc files = buildGo acc (files.filter (fun p => p.2.isOk)) := by
  induction files with
  | nil => intro acc; rfl
  | cons p t ih =>
    intro acc
    rcases p with ⟨fn, d⟩
    by_cases he : pyEndsWith fn ".json" = true
    · cases d <;> simp [buildGo, he, Doc.isOk, List.filter_cons, ih]
    · cases d <;> simp [buildGo, he, Doc.isOk, List.filter_cons, ih]

/-- C5 (amended): the index builder ignores exactly the documents that
are unparseable, not keyed structures, or lacking `info` (filtering them
away changes nothing); a one-good-one-bad corpus yields an index of size
one; and a well-formed document is indexed under the id declared in
`info` when present, else under the file name with every occurrence of
`.json` removed (Python `replace`), which is the extension-stripped name
whenever `.json` occurs only as the final extension. -/
theorem c5_builder_skips_and_resolves (files : Files) (fn1 fn2 : String)
    (sd : ShaderDoc) (d : Doc)
    (h1 : pyEndsWith fn1 ".json" = true) (h2 : d.isOk = false) :
    buildIndex files = buildIndex (files.filter (fun p => p.2.isOk)) ∧
      (buildIndex [(fn1, Doc.ok sd), (fn2, d)]).length = 1 ∧
      buildIndex [(fn1, Doc.ok sd)] =
        [(sd.info.id.getD (pyReplaceJson fn1), mkRecord fn1 sd)] := by
  refine ⟨buildGo_filter files [], ?_, ?_⟩
  · cases d with
    | ok sd2 => simp [Doc.isOk] at h2
    | malformed =>
      by_cases he : pyEndsWith fn2 ".json" = true <;>
        simp [buildIndex, buildGo, h1, he, assocSet]
    | notDict =>
      by_cases he : pyEndsWith fn2 ".json" = true <;>
        simp [buildIndex, buildGo, h1, he, assocSet]
    | dictNoInfo =>
      by_cases he : pyEndsWith fn2 ".json" = true <;>
        simp [buildIndex, buildGo, h1, he, assocSet]
  · simp [buildIndex, buildGo, h1, assocSet, resolveId]

/-- Witness for the amended C5 on a concrete two-document corpus. -/
theorem c5_witness :
    pyEndsWith "a.json" ".json" = true ∧ Doc.malformed.isOk = false ∧
      (buildIndex ([] : Files) = buildIndex (([] : Files).filter (fun p => p.2.isOk)) ∧
        (buildIndex [("a.json", Doc.ok c5sd), ("b.json", Doc.malformed)]).length = 1 ∧
        buildIndex [("a.json", Doc.ok c5sd)] =
          [(c5sd.info.id.getD (pyReplaceJson "a.json"), mkRecord "a.json" c5sd)]) :=
  ⟨by decide, by decide,
    c5_builder_skips_and_resolves [] "a.json" "b.json" c5sd Doc.malformed (by decide) (by decide)⟩

/-- Counterexample to C5 as stated: a file named `a.json.json` with no
declared id is indexed under `a` (Python `replace` removes every
occurrence of `.json`), not under the extension-stripped name `a.json`. -/
theorem c5_counterexample :
    assocGet (buildIndex [("a.json.json",
        Doc.ok ⟨⟨none, none, none, none, none, none⟩, none⟩)]) "a.json" = none ∧
      assocGet (buildIndex [("a.json.json",
        Doc.ok ⟨⟨none, none, none, none, none, none⟩, none⟩)]) "a" ≠ none ∧
      pyReplaceJson "a.json.json" = "a" ∧ "a" ≠ "a.json" := by
  decide

/-- C7, evaluated at the failing input: two tag files listing the same
shader make the mutator report a tags-updated count of 2 while exactly
one JSON document actually changed. -/
theorem c7_pair_counting_evaluated :
    (add_requires_info_to_jsons c7sys).1.1 = 2 ∧
      ((c7sys.jsonFiles.map Prod.fst).filter
          (fun fn => decide (assocGet (add_requires_info_to_jsons c7sys).2.jsonFiles fn ≠
            assocGet c7sys.jsonFiles fn))).length = 1 := by
  decide

lemma hasStr_append_left (l l' : List String) (x : String) (h : hasStr l x = true) :
    hasStr (l ++ l') x = true := by
  rw [hasStr_iff] at h ⊢
  exact List.mem_append_left _ h

lemma addMissing_pres (cur l : List String) (x : String) (h : hasStr cur x = true) :
    hasStr (addMissing cur l) x = true := by
  induction l generalizing cur with
  | nil => exact h
  | cons r t ih =>
    simp only [addMissing]
    apply ih
    split
    · exact h
    · exact hasStr_append_left _ _ _ h

lemma addMissing_adds (cur l : List String) (x : String) (h : hasStr l x = true) :
    hasStr (addMissing cur l) x = true := by
  induction l generalizing cur with
  | nil => simp [hasStr] at h
  | cons r t ih =>
    simp only [addMissing]
    by_cases hx : r = x
    · subst hx
      apply addMissing_pres
      split
      · next h' => exact h'
      · exact (hasStr_iff _ _).mpr (List.mem_append_right _ (List.mem_singleton.mpr rfl))
    · have ht : hasStr t x = true := by
        simpa only [hasStr, if_neg hx] using h
      exact ih _ ht

lemma addMissing_len (cur l : List String) : cur.length ≤ (addMissing cur l).length := by
  induction l generalizing cur with
  | nil => exact le_refl _
  | cons r t ih =>
    simp only [addMissing]
    split
    · exact ih _
    · calc cur.length ≤ (cur ++ [r]).length := by simp
        _ ≤ _ := ih _

lemma addMissing_eq_of_le (cur l : List String)
    (h : (addMissing cur l).length ≤ cur.length) : addMissing cur l = cur := by
  induction l generalizing cur with
  | nil => rfl
  | cons r t ih =>
    by_cases hc : hasStr cur r = true
    · simp only [addMissing, if_pos hc] at h ⊢
      exact ih _ h
    · simp only [addMissing, if_neg hc] at h
      have h2 := addMissing_len (cur ++ [r]) t
      simp only [List.length_append, List.length_singleton] at h2
      omega

lemma addMissing_eq_self (cur l : List String)
    (h : ∀ x, hasStr l x = true → hasStr cur x = true) : addMissing cur l = cur := by
  induction l with
  | nil => rfl
  | cons r t ih =>
    have hr : hasStr cur r = true := h r (by simp [hasStr])
    simp only [addMissing, if_pos hr]
    refine ih (fun x hx => h x ?_)
    simp only [hasStr]
    split
    · rfl
    · exact hx

lemma saturated_updated (sd : ShaderDoc) (rps : List RenderPass)
    (hrp : sd.renderpass = some rps) :
    saturatedDoc (Doc.ok { sd with info := { sd.info with
      requires := some (addMissing (sd.info.requires.getD []) (inferRequires rps)) } }) := by
  intro sd'' rps' heq hrps' x hx
  injection heq with h3
  subst h3
  rw [hrp] at hrps'
  injection hrps' with h4
  subst h4
  exact addMissing_adds _ _ _ hx

lemma saturated_no_write (sd : ShaderDoc) (rps : List RenderPass)
    (hrp : sd.renderpass = some rps)
    (hlen : ¬ (sd.info.requires.getD []).length <
      (addMissing (sd.info.requires.getD []) (inferRequires rps)).length) :
    saturatedDoc (Doc.ok sd) := by
  have heq : addMissing (sd.info.requires.getD []) (inferRequires rps) =
      sd.info.requires.getD [] :=
    addMissing_eq_of_le _ _ (Nat.le_of_not_lt hlen)
  intro sd'' rps' h2 hrps' x hx
  injection h2 with h3
  subst h3
  rw [hrp] at hrps'
  injection hrps' with h4
  subst h4
  rw [← heq]
  exact addMissing_adds _ _ _ hx

lemma satAt_of_none {fs : Files} {fn : String} (hg : assocGet fs fn = none) : satAt fs fn := by
  intro d hd
  rw [hg] at hd
  cases hd

lemma reqDocStep_sat (fs : Files) (g fn : String) (h : fn = g ∨ satAt fs fn) :
    satAt (reqDocStep fs g).1 fn := by
  cases hg : assocGet fs g with
  | none =>
    have hres : (reqDocStep fs g).1 = fs := by simp [reqDocStep, hg]
    rw [hres]
    rcases h with rfl | h
    · exact satAt_of_none hg
    · exact h
  | some d =>
    cases d with
    | ok sd =>
      cases hrp : sd.renderpass with
      | none =>
        have hres : (reqDocStep fs g).1 = fs := by simp [reqDocStep, hg, hrp]
        rw [hres]
        rcases h with rfl | h
        · intro d hd
          rw [hg] at hd
          cases hd
          intro sd'' rps' heq hrps'
          injection heq with h3
          subst h3
          rw [hrp] at hrps'
          cases hrps'
        · exact h
      | some rps =>
        by_cases hlen : (sd.info.requires.getD []).length <
            (addMissing (sd.info.requires.getD []) (inferRequires rps)).length
        · have hres : (reqDocStep fs g).1 = assocSet fs g
              (Doc.ok { sd with info := { sd.info with
                requires := some (addMissing (sd.info.requires.getD [])
                  (inferRequires rps)) } }) := by
            simp [reqDocStep, hg, hrp, hlen]
          rw [hres]
          intro d hd
          by_cases hfg : fn = g
          · subst hfg
            rw [assocGet_set_self] at hd
            cases hd
            exact saturated_updated sd rps hrp
          · rw [assocGet_set_ne _ _ _ _ hfg] at hd
            rcases h with rfl | hsat
            · exact absurd rfl hfg
            · exact hsat d hd
        · have hres : (reqDocStep fs g).1 = fs := by simp [reqDocStep, hg, hrp, hlen]
          rw [hres]
          rcases h with rfl | hsat
          · intro d hd
            rw [hg] at hd
            cases hd
            exact saturated_no_write sd rps hrp hlen
          · exact hsat
    | malformed =>
      have hres : (reqDocStep fs g).1 = fs := by simp [reqDocStep, hg]
      rw [hres]
      rcases h with rfl | hsat
      · intro d hd
        rw [hg] at hd
        cases hd
        intro sd'' rps' heq
        simp at heq
      · exact hsat
    | notDict =>
      have hres : (reqDocStep fs g).1 = fs := by simp [reqDocStep, hg]
      rw [hres]
      rcases h with rfl | hsat
      · intro d hd
        rw [hg] at hd
        cases hd
        intro sd'' rps' heq
        simp at heq
      · exact hsat
    | dictNoInfo =>
      have hres : (reqDocStep fs g).1 = fs := by simp [reqDocStep, hg]
      rw [hres]
      rcases h with rfl | hsat
      · intro d hd
        rw [hg] at hd
        cases hd
        intro sd'' rps' heq
        simp at heq
      · exact hsat

lemma reqPassGo_sat (names : List String) : ∀ (fs : Files) (n : Nat) (fn : String),
    pyEndsWith fn ".json" = true → (fn ∈ names ∨ satAt fs fn) →
    satAt (reqPassGo names fs n).1 fn := by
  induction names with
  | nil =>
    intro fs n fn _ h
    rcases h with h | h
    · simp at h
    · exact h
  | cons g rest ih =>
    intro fs n fn he h
    by_cases hg : pyEndsWith g ".json" = true
    · rw [show reqPassGo (g :: rest) fs n =
        reqPassGo rest (reqDocStep fs g).1
          (if (reqDocStep fs g).2 = true then n + 1 else n) from by simp [reqPassGo, hg]]
      apply ih _ _ _ he
      rcases h with h | h
      · rcases List.mem_cons.mp h with rfl | hm
        · right
          exact reqDocStep_sat fs fn fn (Or.inl rfl)
        · left
          exact hm
      · right
        exact reqDocStep_sat fs g fn (Or.inr h)
    · rw [show reqPassGo (g :: rest) fs n = reqPassGo rest fs n from by simp [reqPassGo, hg]]
      apply ih _ _ _ he
      rcases h with h | h
      · rcases List.mem_cons.mp h with rfl | hm
        · exact absurd he hg
        · left
          exact hm
      · right
        exact h

lemma requiresPass_sat (fs : Files) (fn : String) (he : pyEndsWith fn ".json" = true) :
    satAt (requiresPass fs).1 fn := by
  apply reqPassGo_sat _ _ _ _ he
  cases hg : assocGet fs fn with
  | none =>
    right
    exact satAt_of_none hg
  | some d =>
    left
    exact assocGet_some_mem hg

lemma reqDocStep_noop (fs : Files) (g : String) (h : satAt fs g) :
    reqDocStep fs g = (fs, false) := by
  cases hg : assocGet fs g with
  | none => simp [reqDocStep, hg]
  | some d =>
    cases d with
    | ok sd =>
      cases hrp : sd.renderpass with
      | none => simp [reqDocStep, hg, hrp]
      | some rps =>
        have hsat := h (Doc.ok sd) hg sd rps rfl hrp
        have heq : addMissing (sd.info.requires.getD []) (inferRequires rps) =
            sd.info.requires.getD [] := addMissing_eq_self _ _ hsat
        simp [reqDocStep, hg, hrp, heq]
    | malformed => simp [reqDocStep, hg]
    | notDict => simp [reqDocStep, hg]
    | dictNoInfo => simp [reqDocStep, hg]

lemma reqPassGo_noop (names : List String) : ∀ (fs : Files) (n : Nat),
    (∀ fn, pyEndsWith fn ".json" = true → satAt fs fn) →
    reqPassGo names fs n = (fs, n) := by
  induction names with
  | nil => intro fs n _; rfl
  | cons g rest ih =>
    intro fs n h
    by_cases hg : pyEndsWith g ".json" = true
    · have hstep := reqDocStep_noop fs g (h g hg)
      rw [show reqPassGo (g :: rest) fs n = reqPassGo rest fs n from by
        simp [reqPassGo, hg, hstep]]
      exact ih fs n h
    · rw [show reqPassGo (g :: rest) fs n = reqPassGo rest fs n from by simp [reqPassGo, hg]]
      exact ih fs n h

lemma requiresPass_noop (fs : Files)
    (h : ∀ fn, pyEndsWith fn ".json" = true → satAt fs fn) :
    requiresPass fs = (fs, 0) :=
  reqPassGo_noop _ fs 0 h

lemma tagDocStep_sat (fs : Files) (tag sid fn : String) (h : satAt fs fn) :
    satAt (tagDocStep fs tag sid).1 fn := by
  cases hg : assocGet fs (sid ++ ".json") with
  | none => simpa [tagDocStep, hg] using h
  | some d =>
    cases d with
    | ok sd =>
      by_cases htag : hasStr (sd.info.tags.getD []) tag = true
      · simpa [tagDocStep, hg, htag] using h
      · have hres : (tagDocStep fs tag sid).1 = assocSet fs (sid ++ ".json")
            (Doc.ok { sd with info := { sd.info with
              tags := some (sd.info.tags.getD [] ++ [tag]) } }) := by
          simp [tagDocStep, hg, htag]
        rw [hres]
        intro d hd
        by_cases hfg : fn = sid ++ ".json"
        · subst hfg
          rw [assocGet_set_self] at hd
          cases hd
          have hold := h (Doc.ok sd) hg
          intro sd'' rps' heq hrps'
          injection heq with h3
          subst h3
          exact fun x hx => hold sd rps' rfl hrps' x hx
        · rw [assocGet_set_ne _ _ _ _ hfg] at hd
          exact h d hd
    | malformed => simpa [tagDocStep, hg] using h
    | notDict => simpa [tagDocStep, hg] using h
    | dictNoInfo => simpa [tagDocStep, hg] using h

lemma tagIdsGo_sat (tag : String) (ids : List String) : ∀ (fs : Files) (n : Nat) (fn : String),
    satAt fs fn → satAt (tagIdsGo tag ids fs n).1 fn := by
  induction ids with
  | nil => intro fs n fn h; exact h
  | cons sid rest ih =>
    intro fs n fn h
    rw [show tagIdsGo tag (sid :: rest) fs n =
      tagIdsGo tag rest (tagDocStep fs tag sid).1
        (if (tagDocStep fs tag sid).2 = true then n + 1 else n) from by simp [tagIdsGo]]
    exact ih _ _ _ (tagDocStep_sat fs tag sid fn h)

lemma tagPassGo_sat (tm : TagAssoc) : ∀ (fs : Files) (n : Nat) (fn : String),
    satAt fs fn → satAt (tagPassGo tm fs n).1 fn := by
  induction tm with
  | nil => intro fs n fn h; exact h
  | cons p rest ih =>
    rcases p with ⟨tag, ids⟩
    intro fs n fn h
    rw [show tagPassGo ((tag, ids) :: rest) fs n =
      tagPassGo rest (tagIdsGo tag ids fs n).1 (tagIdsGo tag ids fs n).2 from by
        simp [tagPassGo]]
    exact ih _ _ _ (tagIdsGo_sat tag ids fs n fn h)

lemma bt_jsonFiles (sys : Sys) : (build_tag_mappings sys).2.jsonFiles = sys.jsonFiles := by
  rcases h : sys.cacheFile with _ | b
  · simp [build_tag_mappings, h]
  · cases b with
    | corrupt => simp [build_tag_mappings, h]
    | valid tc si => cases tc <;> simp [build_tag_mappings, h]

/-- C6: the metadata mutator is idempotent on `requires` — after one run,
the second run's requires pass leaves every document unchanged (no
capability string is appended, no document rewritten) and the second run
reports a requires-updated count of 0. -/
theorem c6_requires_pass_idempotent (sys : Sys) :
    requiresPass (tagPass (build_tag_mappings (add_requires_info_to_jsons sys).2).1
        ((build_tag_mappings (add_requires_info_to_jsons sys).2).2.jsonFiles)).1 =
      ((tagPass (build_tag_mappings (add_requires_info_to_jsons sys).2).1
        ((build_tag_mappings (add_requires_info_to_jsons sys).2).2.jsonFiles)).1, 0) ∧
      (add_requires_info_to_jsons (add_requires_info_to_jsons sys).2).1.2 = 0 := by
  have h1 : ∀ fn, pyEndsWith fn ".json" = true →
      satAt (add_requires_info_to_jsons sys).2.jsonFiles fn := by
    intro fn he
    have hrw : (add_requires_info_to_jsons sys).2.jsonFiles =
        (requiresPass (tagPass (build_tag_mappings sys).1
          (build_tag_mappings sys).2.jsonFiles).1).1 := rfl
    rw [hrw]
    exact requiresPass_sat _ fn he
  have h2 : ∀ fn, pyEndsWith fn ".json" = true →
      satAt ((build_tag_mappings (add_requires_info_to_jsons sys).2).2.jsonFiles) fn := by
    intro fn he
    rw [bt_jsonFiles]
    exact h1 fn he
  have h3 : ∀ fn, pyEndsWith fn ".json" = true →
      satAt (tagPass (build_tag_mappings (add_requires_info_to_jsons sys).2).1
        ((build_tag_mappings (add_requires_info_to_jsons sys).2).2.jsonFiles)).1 fn := by
    intro fn he
    exact tagPassGo_sat _ _ _ fn (h2 fn he)
  have h4 := requiresPass_noop _ (fun fn he => h3 fn he)
  refine ⟨h4, ?_⟩
  have hrw : (add_requires_info_to_jsons (add_requires_info_to_jsons sys).2).1.2 =
      (requiresPass (tagPass (build_tag_mappings (add_requires_info_to_jsons sys).2).1
        ((build_tag_mappings (add_requires_info_to_jsons sys).2).2.jsonFiles)).1).2 := rfl
  rw [hrw, h4]
